import Mathlib

/-!
Verification of the obsidian_image_caption plugin core:
the caption/size mini-language parser (src/common.ts: parseCaptionText,
parseSize, updateFigureIndices) and the syntax-tree image extractor
(src/state_parser.ts: StateParser.parse and its helpers).

JS strings are modelled as List Char; JS numbers produced by parseInt are
modelled by JSNum (an integer or NaN); undefined/null option values are
modelled by Option.
-/

/-- Characters of a Lean string literal, used to write concrete JS strings. -/
def chars (s : String) : List Char := s.data

/-! ## JS string primitives -/

/-- Whether the pattern occurs in s at position i (JS substring test used by
indexOf and lastIndexOf; the empty pattern occurs at every position). -/
def occursAt (s pat : List Char) (i : Nat) : Bool :=
  (s.drop i).take pat.length == pat

/-- JS String.prototype.indexOf: smallest position at which pat occurs, else -1. -/
def jsIndexOf (s pat : List Char) : Int :=
  match (List.range (s.length + 1)).find? (fun i => occursAt s pat i) with
  | some i => (i : Int)
  | none => -1

/-- JS String.prototype.lastIndexOf: largest position at which pat occurs, else -1. -/
def jsLastIndexOf (s pat : List Char) : Int :=
  match (List.range (s.length + 1)).reverse.find? (fun i => occursAt s pat i) with
  | some i => (i : Int)
  | none => -1

/-- JS String.prototype.slice with two arguments: negative indices count from
the end, both are clamped to [0, length], and the result is empty when the
clamped start is at or past the clamped end. -/
def jsSlice (s : List Char) (a b : Int) : List Char :=
  let len : Int := (s.length : Int)
  let lo : Int := if a < 0 then max (len + a) 0 else min a len
  let hi : Int := if b < 0 then max (len + b) 0 else min b len
  (s.take hi.toNat).drop lo.toNat

/-- JS String.prototype.trim (the plugin only ever trims ASCII whitespace). -/
def jsTrim (s : List Char) : List Char :=
  ((s.dropWhile Char.isWhitespace).reverse.dropWhile Char.isWhitespace).reverse

/-- JS String.prototype.split with a single-character separator. -/
def splitOnChar (c : Char) : List Char → List (List Char)
  | [] => [[]]
  | x :: xs =>
    match splitOnChar c xs with
    | [] => [[]]
    | part :: parts => if x == c then [] :: part :: parts else (x :: part) :: parts

/-- A JS number as produced by parseInt: an integer or NaN. -/
inductive JSNum where
  | num : Int → JSNum
  | nan : JSNum
deriving DecidableEq, Repr

/-- Value of a decimal digit string. -/
def digitsVal (l : List Char) : Nat :=
  l.foldl (fun a c => a * 10 + (c.toNat - 48)) 0

/-- JS parseInt with no radix argument on the inputs reachable in this plugin:
skip leading whitespace, read an optional sign, then a maximal run of decimal
digits; NaN when there is no digit. (The hex-literal special case of parseInt
is unreachable: the strings fed to it are digit runs or case variants of
"auto", none of which begin with "0x".) -/
def jsParseInt (s : List Char) : JSNum :=
  let t := s.dropWhile Char.isWhitespace
  let signAndRest : Int × List Char :=
    match t with
    | '-' :: r => (-1, r)
    | '+' :: r => (1, r)
    | r => (1, r)
  let ds := signAndRest.2.takeWhile Char.isDigit
  if ds.isEmpty then .nan else .num (signAndRest.1 * (digitsVal ds : Int))

/-! ## The size regex /(\d+|auto)x(\d+|auto)/i

JS regex matching is modelled directly. The alternation (\d+|auto) is
deterministic here: if the current character is a digit, the greedy \d+ takes
the maximal digit run, and no backtracking of that run can ever succeed
(a shortened run is followed by a digit, never by x), nor can the auto
alternative (it starts with a non-digit); if the current character is not a
digit only the auto alternative can apply. The overall match is the leftmost
position at which the whole pattern matches, exactly as in JS. -/

/-- Case-insensitive character comparison as performed by the /i flag on the
ASCII pattern characters used here. -/
def ciEq (a b : Char) : Bool := a.toLower == b.toLower

/-- Match one (\d+|auto) alternative at the head of s, returning the matched
group text and the rest of the string. -/
def matchDim : List Char → Option (List Char × List Char)
  | [] => none
  | c :: cs =>
    if c.isDigit then
      some ((c :: cs).takeWhile Char.isDigit, (c :: cs).dropWhile Char.isDigit)
    else
      match c, cs with
      | c1, c2 :: c3 :: c4 :: rest =>
        if ciEq c1 'a' && ciEq c2 'u' && ciEq c3 't' && ciEq c4 'o' then
          some ([c1, c2, c3, c4], rest)
        else none
      | _, _ => none

/-- Match the whole pattern (\d+|auto)x(\d+|auto) at the head of s, returning
the two captured groups. -/
def matchSizeAt (s : List Char) : Option (List Char × List Char) :=
  match matchDim s with
  | none => none
  | some (g1, r1) =>
    match r1 with
    | [] => none
    | x :: r2 =>
      if ciEq x 'x' then
        match matchDim r2 with
        | none => none
        | some (g2, _) => some (g1, g2)
      else none

/-- text.match(size_pattern): the leftmost match of the pattern in text. -/
def findSizeMatch : List Char → Option (List Char × List Char)
  | [] => none
  | c :: cs =>
    match matchSizeAt (c :: cs) with
    | some m => some m
    | none => findSizeMatch cs

/-! ## parseCaptionText and parseSize (src/common.ts) -/

/-- The ImageSize value as built at runtime: parseSize stores the result of
parseInt on each captured group, so a group "auto" becomes NaN. -/
structure ImageSize where
  width : JSNum
  height : JSNum
deriving DecidableEq, Repr

/-- Return value of parseCaptionText: {text: string|undefined,
size: ImageSize|undefined}. -/
structure ParsedCaption where
  text : Option (List Char)
  size : Option ImageSize
deriving DecidableEq, Repr

/-- parseSize (src/unnamed/part_003 lines 101-115): empty text is falsy and
yields undefined; otherwise the first regex match yields
{width: parseInt(match[1]), height: parseInt(match[2])}. -/
def parseSize (text : List Char) : Option ImageSize :=
  if text.isEmpty then none
  else
    match findSizeMatch text with
    | none => none
    | some (g1, g2) => some { width := jsParseInt g1, height := jsParseInt g2 }

/-- Body of parseCaptionText after start/end indices and delimiters are fixed
(src/unnamed/part_003 lines 61-89). In the no-caption branch the source reads
remaining_text = [text], so remaining_text[1] is undefined there and
parseSize(undefined) returns undefined through its falsiness check, which is
modelled as parseSize []. -/
def captionAndSize (text sd ed : List Char) (s e : Int) : ParsedCaption :=
  if s = -1 ∨ e = -1 ∨ s = e then
    { text := none
      size :=
        match parseSize text with
        | some sz => some sz
        | none => parseSize [] }
  else
    { text := some (jsSlice text (s + (sd.length : Int)) e)
      size :=
        match parseSize (jsSlice text 0 s) with
        | some sz => some sz
        | none => parseSize (jsSlice text (e + (ed.length : Int)) (text.length : Int)) }

/-- parseCaptionText (src/unnamed/part_003 lines 23-90). Empty text is falsy
and yields null (none). 0 delimiters: start = 0, end = text.length, empty
delimiter strings. 1 delimiter: it is both start and end delimiter. 2
delimiters: separate start and end. More: {text: undefined, size: undefined}. -/
def parseCaptionText (text : List Char) (delimeter : List (List Char)) : Option ParsedCaption :=
  if text.isEmpty then none
  else
    match delimeter with
    | [] => some (captionAndSize text [] [] 0 (text.length : Int))
    | [d] => some (captionAndSize text d d (jsIndexOf text d) (jsLastIndexOf text d))
    | [d0, d1] => some (captionAndSize text d0 d1 (jsIndexOf text d0) (jsLastIndexOf text d1))
    | _ => some { text := none, size := none }

/-! ## updateFigureIndices (src/unnamed/part_003 lines 171-183) -/

/-- A rendered caption element matched by the caption selector inside one
workspace leaf: elId stands for the identity of the DOM element, and
imageCaptionIndex is its data-image-caption-index attribute. -/
structure CaptionEl where
  elId : Nat
  imageCaptionIndex : Option String
deriving DecidableEq, Repr

/-- Body of the inner forEach of updateFigureIndices: walk the captions of one
workspace leaf in rendering order, assigning index, index+1, ... as the
data-image-caption-index attribute (index.toString()). -/
def assignIndices (index : Nat) : List CaptionEl → List CaptionEl
  | [] => []
  | el :: rest =>
    { el with imageCaptionIndex := some (toString index) } :: assignIndices (index + 1) rest

/-- updateFigureIndices: for every workspace leaf, number the rendered captions
densely from 1 in rendering order. -/
def updateFigureIndices (leaves : List (List CaptionEl)) : List (List CaptionEl) :=
  leaves.map (assignIndices 1)

/-! ## The syntax tree and the image extractor (src/src/state_parser.ts) -/

mutual
/-- A syntax tree node: the space-separated prop string that the host stores
at node.type.props[11] (none when absent), the [from, to) offsets of the node
in the document text, and the node's children. -/
inductive SNode where
  | mk (propStr : Option String) (nfrom : Nat) (nto : Nat) (children : SForest)
/-- An ordered sequence of sibling nodes. -/
inductive SForest where
  | nil
  | cons (n : SNode) (rest : SForest)
end

instance : Inhabited SNode := ⟨.mk none 0 0 .nil⟩

def SNode.propStr : SNode → Option String
  | .mk p _ _ _ => p

def SNode.nfrom : SNode → Nat
  | .mk _ f _ _ => f

def SNode.nto : SNode → Nat
  | .mk _ _ t _ => t

def SNode.children : SNode → SForest
  | .mk _ _ _ c => c

/-- The sibling chain starting at the head of a forest, as walked through
SyntaxNode.nextSibling. -/
def SForest.toList : SForest → List SNode
  | .nil => []
  | .cons n rest => n :: rest.toList

/-- node_props: node.type.props[NODE_TYPE_PROP_ID] split on spaces, or [] when
the entry is undefined. -/
def node_props (node : SNode) : List String :=
  match node.propStr with
  | none => []
  | some s => (splitOnChar ' ' s.data).map String.mk

/-- node_has_prop: whether the node's prop list contains the given prop. -/
def node_has_prop (prop : String) (node : SNode) : Bool :=
  (node_props node).contains prop

def node_is_embed_start (node : SNode) : Bool :=
  node_has_prop "formatting-link-start" node

def node_is_embed_end (node : SNode) : Bool :=
  node_has_prop "formatting-link-end" node

def node_is_image_start (node : SNode) : Bool :=
  node_has_prop "image-marker" node

/-- The marker count computed inside node_is_image_end: the number of
collected nodes carrying the formatting-link-string prop, as a map to 0/1
followed by a sum. -/
def num_markers (nodes : List SNode) : Nat :=
  (nodes.map (fun n => if node_has_prop "formatting-link-string" n then 1 else 0)).foldl
    (fun sum val => sum + val) 0

/-- node_is_image_end: the external span is closed once exactly two
formatting-link-string markers have been seen among the collected nodes. -/
def node_is_image_end (_node : SNode) (nodes : List SNode) : Bool :=
  num_markers nodes == 2

def node_is_alt_text (node : SNode) : Bool :=
  node_has_prop "link-alias" node || node_has_prop "image-alt-text" node

def node_is_embed_src (node : SNode) : Bool :=
  node_has_prop "hmd-internal-link" node

def node_is_image_src (node : SNode) : Bool :=
  node_has_prop "url" node

/-- nodes_text: the document text from the first node's start offset to the
last node's end offset. -/
def nodes_text (nodes : List SNode) (doc : List Char) : List Char :=
  jsSlice doc ((nodes.headD default).nfrom : Int) ((nodes.getLastD default).nto : Int)

/-- Loop of collect_nodes_until: nodes already collected (never empty), then
keep appending the next sibling while the stop predicate is false on
(last collected, all collected); stop silently at sibling exhaustion. -/
def collect_go (stop : SNode → List SNode → Bool) : List SNode → List SNode → List SNode
  | nodes, sibs =>
    if stop (nodes.getLastD default) nodes then nodes
    else
      match sibs with
      | [] => nodes
      | next :: rest => collect_go stop (nodes ++ [next]) rest

/-- collect_nodes_until (src/src/state_parser.ts lines 126-140): collect the
start node and following siblings until the stop condition fires or the
siblings are exhausted. -/
def collect_nodes_until (start_node : SNode) (sibs : List SNode)
    (stop : SNode → List SNode → Bool) : List SNode :=
  collect_go stop [start_node] sibs

/-- parse_nodes_src (src/src/state_parser.ts lines 298-327): internal embeds
use the internal-link nodes' text up to the first pipe, trimmed; external
embeds use the url nodes' text trimmed and stripped of one leading and one
trailing character; with neither kind present an Error is thrown. -/
def parse_nodes_src (nodes : List SNode) (doc : List Char) : Except String (List Char) :=
  let src_nodes := nodes.filter node_is_embed_src
  if src_nodes.length ≠ 0 then
    let src_text := nodes_text src_nodes doc
    let src_parts := (splitOnChar '|' src_text).map jsTrim
    .ok (src_parts.headD [])
  else
    let src_nodes2 := nodes.filter node_is_image_src
    if src_nodes2.length = 0 then
      .error "Could not find source for nodes."
    else
      .ok (jsSlice (jsTrim (nodes_text src_nodes2 doc)) 1 (-1))

/-- parse_nodes_caption (src/src/state_parser.ts lines 337-349): null when
the span carries no alt-text node; otherwise the delimiter parser is applied
to the document text spanned by the alt-text nodes. -/
def parse_nodes_caption (nodes : List SNode) (doc : List Char)
    (delimeter : List (List Char)) : Option ParsedCaption :=
  let alt_nodes := nodes.filter node_is_alt_text
  if alt_nodes.length = 0 then none
  else
    parseCaptionText
      (jsSlice doc ((alt_nodes.headD default).nfrom : Int) ((alt_nodes.getLastD default).nto : Int))
      delimeter

/-- Type of embed. -/
inductive EmbedType where
  | internal
  | external
deriving DecidableEq, Repr

/-- ParsedImage: the collected span, the source URI text, the optional caption
and size, and the embed type. -/
structure ParsedImage where
  nodes : List SNode
  src : List Char
  caption : Option (List Char)
  size : Option ImageSize
  embed_type : EmbedType

/-- The enter callback of StateParser.parse over a sibling sequence, threading
the accumulated image list. An embed start collects its span from the
following siblings (SyntaxNode.nextSibling), builds the record, and returns
false so children are skipped, after which iteration continues at the next
sibling; any other node recurses into its children. The Error thrown by
parse_nodes_src is not caught anywhere in parse, so it aborts the iteration. -/
def parse_go (delimeter : List (List Char)) (doc : List Char) :
    SForest → List ParsedImage → Except String (List ParsedImage)
  | .nil, acc => .ok acc
  | .cons (.mk p f t c) rest, acc =>
    if node_is_embed_start (.mk p f t c) then
      let nodes := collect_nodes_until (.mk p f t c) rest.toList (fun nd _ => node_is_embed_end nd)
      match parse_nodes_src nodes doc with
      | .error e => .error e
      | .ok src =>
        let ci := (parse_nodes_caption nodes doc delimeter).getD { text := none, size := none }
        parse_go delimeter doc rest
          (acc ++ [{ nodes := nodes, src := src, caption := ci.text, size := ci.size,
                     embed_type := .internal }])
    else if node_is_image_start (.mk p f t c) then
      let nodes := collect_nodes_until (.mk p f t c) rest.toList node_is_image_end
      match parse_nodes_src nodes doc with
      | .error e => .error e
      | .ok src =>
        let ci := (parse_nodes_caption nodes doc delimeter).getD { text := none, size := none }
        parse_go delimeter doc rest
          (acc ++ [{ nodes := nodes, src := src, caption := ci.text, size := ci.size,
                     embed_type := .external }])
    else
      match parse_go delimeter doc c acc with
      | .error e => .error e
      | .ok acc2 => parse_go delimeter doc rest acc2

/-- StateParser.parse (src/src/state_parser.ts lines 243-288): iterate the
tree from its root with an empty image list; the output list order is the
order in which spans were entered. -/
def StateParser_parse (delimeter : List (List Char)) (doc : List Char)
    (root : SNode) : Except String (List ParsedImage) :=
  parse_go delimeter doc (.cons root .nil) []

deriving instance DecidableEq for Except

/-- Document text of the C2 counterexample: a valid internal embed followed by
an embed span with no source nodes. -/
def c2Doc : List Char := chars "![[img.png|hello]]![[]]"

/-- The valid embed span A: link start, internal link source, alias, link end. -/
def c2Good : SForest :=
  .cons (.mk (some "formatting-link-start") 0 3 .nil)
    (.cons (.mk (some "hmd-internal-link") 3 10 .nil)
      (.cons (.mk (some "link-alias") 11 16 .nil)
        (.cons (.mk (some "formatting-link-end") 16 18 .nil) .nil)))

/-- The faulty embed span B: link start and link end with no source node. -/
def c2Bad : SForest :=
  .cons (.mk (some "formatting-link-start") 18 21 .nil)
    (.cons (.mk (some "formatting-link-end") 21 23 .nil) .nil)

/-- Concatenation of sibling forests, used to build the counterexample tree. -/
def SForest.append : SForest → SForest → SForest
  | .nil, g => g
  | .cons n rest, g => .cons n (rest.append g)

/-- Offset well-formedness of a sibling forest within [lo, hi]: every node
starts at or after lo, has a non-empty span ending at or before hi, its
children lie inside its own span, and the following siblings start at or after
its end. Trees produced by the host parser over a document satisfy this. -/
def wfForest : Nat → Nat → SForest → Bool
  | _, _, .nil => true
  | lo, hi, .cons (.mk _ f t c) rest =>
    decide (lo ≤ f) && decide (f < t) && decide (t ≤ hi) && wfForest f t c && wfForest t hi rest

/-- Start offset of a parsed image: the from offset of the first node of its
span. -/
def recStart (im : ParsedImage) : Nat := (im.nodes.headD default).nfrom

/-- Number of nodes of a sibling forest, the induction measure for the
traversal proofs. -/
def forestSize : SForest → Nat
  | .nil => 0
  | .cons (.mk _ _ _ c) rest => 1 + forestSize c + forestSize rest

/-- Document text of the C6 witness: three internal embeds A, B, C in source
order. -/
def c6Doc : List Char := chars "![[a.png]]![[b.png]]![[c.png]]"

/-- Root of the C6 witness tree: the nine span nodes of the three embeds as
children, in document order. -/
def c6Root : SNode :=
  .mk none 0 30
    (.cons (.mk (some "formatting-link-start") 0 3 .nil)
      (.cons (.mk (some "hmd-internal-link") 3 8 .nil)
        (.cons (.mk (some "formatting-link-end") 8 10 .nil)
          (.cons (.mk (some "formatting-link-start") 10 13 .nil)
            (.cons (.mk (some "hmd-internal-link") 13 18 .nil)
              (.cons (.mk (some "formatting-link-end") 18 20 .nil)
                (.cons (.mk (some "formatting-link-start") 20 23 .nil)
                  (.cons (.mk (some "hmd-internal-link") 23 28 .nil)
                    (.cons (.mk (some "formatting-link-end") 28 30 .nil) .nil)))))))))

/-! ## Helper lemmas about the JS string primitives -/

theorem jsIndexOf_nil (p : List Char) : jsIndexOf [] p = if p = [] then 0 else -1 := by
  cases p <;> rfl

theorem jsLastIndexOf_nil (p : List Char) : jsLastIndexOf [] p = if p = [] then 0 else -1 := by
  cases p <;> rfl

theorem jsSlice_zero_length (l : List Char) : jsSlice l 0 (l.length : Int) = l := by
  have h : ¬ ((l.length : Int) < 0) := by omega
  simp [jsSlice, h]

theorem jsSlice_zero_zero (l : List Char) : jsSlice l 0 0 = [] := by
  simp [jsSlice]

theorem jsSlice_length_length (l : List Char) :
    jsSlice l (l.length : Int) (l.length : Int) = [] := by
  have h : ¬ ((l.length : Int) < 0) := by omega
  simp [jsSlice, h]

theorem jsSlice_empty_of_le (l : List Char) (a b : Int) (hb : 0 ≤ b) (hba : b ≤ a) :
    jsSlice l a b = [] := by
  have h1 : ¬ (a < 0) := by omega
  have h2 : ¬ (b < 0) := by omega
  simp only [jsSlice, h1, h2, if_false]
  apply List.drop_eq_nil_of_le
  have hle : (min b (l.length : Int)).toNat ≤ (min a (l.length : Int)).toNat :=
    Int.toNat_le_toNat (min_le_min hba le_rfl)
  calc (l.take (min b (l.length : Int)).toNat).length
      = min (min b (l.length : Int)).toNat l.length := by simp [List.length_take]
    _ ≤ (min b (l.length : Int)).toNat := Nat.min_le_left _ _
    _ ≤ (min a (l.length : Int)).toNat := hle

theorem parseSize_nil : parseSize [] = none := rfl

/-- The empty list is the only falsy text: a helper to discharge isEmpty. -/
theorem isEmpty_false_of_ne_nil {l : List Char} (h : l ≠ []) : l.isEmpty = false := by
  cases l with
  | nil => exact absurd rfl h
  | cons a t => rfl

/-! ## Claim theorems for the caption/size parser -/

/-- C4: for every non-empty text, parsing with the empty delimiter spec
returns the entire text as the caption and no size, even when the text itself
matches the size grammar. -/
theorem parseCaptionText_no_delims (text : List Char) (h : text ≠ []) :
    parseCaptionText text [] = some { text := some text, size := none } := by
  have hlen : 0 < text.length := List.length_pos.mpr h
  have hcond : ¬ ((0 : Int) = -1 ∨ (text.length : Int) = -1 ∨ (0 : Int) = (text.length : Int)) := by
    push_neg
    refine ⟨by omega, by omega, by omega⟩
  simp only [parseCaptionText, isEmpty_false_of_ne_nil h, Bool.false_eq_true, if_false]
  unfold captionAndSize
  rw [if_neg hcond]
  have h1 : ((0 : Int) + (([] : List Char).length : Int)) = 0 := by simp
  have h2 : ((text.length : Int) + (([] : List Char).length : Int)) = (text.length : Int) := by simp
  rw [h1, h2, jsSlice_zero_length, jsSlice_zero_zero, jsSlice_length_length]
  rfl

/-- C4 witness: the empty-delimiter parse of "100x150" keeps the whole text as
the caption and extracts no size. -/
theorem parseCaptionText_no_delims_witness :
    chars "100x150" ≠ [] ∧
      parseCaptionText (chars "100x150") [] =
        some { text := some (chars "100x150"), size := none } :=
  ⟨by decide, parseCaptionText_no_delims (chars "100x150") (by decide)⟩

/-- When the computed start index is at least 1 the text cannot be empty. -/
theorem text_ne_nil_of_found (text sd ed : List Char) (s e : Int)
    (hs : s = jsIndexOf text sd) (he : e = jsLastIndexOf text ed)
    (h1 : s ≠ -1) (h2 : e ≠ -1) (h3 : s ≠ e) : text ≠ [] := by
  intro hts
  subst hts
  rw [jsIndexOf_nil] at hs
  rw [jsLastIndexOf_nil] at he
  by_cases hsd : sd = []
  · by_cases hed : ed = []
    · rw [if_pos hsd] at hs
      rw [if_pos hed] at he
      exact h3 (hs.trans he.symm)
    · rw [if_neg hed] at he
      exact h2 he
  · rw [if_neg hsd] at hs
    exact h1 hs

/-- Shared computation lemma: the caption branch of parseCaptionText when both
indices are found and distinct. -/
theorem parseCaptionText_found_eq (text sd ed : List Char) (dl : List (List Char)) (s e : Int)
    (hdl : dl = [sd] ∧ ed = sd ∨ dl = [sd, ed])
    (hs : s = jsIndexOf text sd) (he : e = jsLastIndexOf text ed)
    (h1 : s ≠ -1) (h2 : e ≠ -1) (h3 : s ≠ e) :
    parseCaptionText text dl =
      some { text := some (jsSlice text (s + (sd.length : Int)) e)
             size :=
               match parseSize (jsSlice text 0 s) with
               | some sz => some sz
               | none => parseSize (jsSlice text (e + (ed.length : Int)) (text.length : Int)) } := by
  have htext : text ≠ [] := text_ne_nil_of_found text sd ed s e hs he h1 h2 h3
  have hcond : ¬ (s = -1 ∨ e = -1 ∨ s = e) := by
    push_neg
    exact ⟨h1, h2, h3⟩
  rcases hdl with ⟨hdl1, hed⟩ | hdl2
  · subst hdl1
    subst hed
    simp only [parseCaptionText, isEmpty_false_of_ne_nil htext, Bool.false_eq_true, if_false]
    rw [← hs, ← he]
    unfold captionAndSize
    rw [if_neg hcond]
  · subst hdl2
    simp only [parseCaptionText, isEmpty_false_of_ne_nil htext, Bool.false_eq_true, if_false]
    rw [← hs, ← he]
    unfold captionAndSize
    rw [if_neg hcond]

/-- C3: when both delimiter indices are found and distinct, the caption is the
text strictly between the first start-delimiter occurrence and the last
end-delimiter occurrence (delimiter characters excluded, interior delimiter
characters preserved verbatim), and the size is scanned from the segment before
the caption first, then from the segment after it. -/
theorem parseCaptionText_delimited (text sd ed : List Char) (dl : List (List Char)) (s e : Int)
    (hdl : dl = [sd] ∧ ed = sd ∨ dl = [sd, ed])
    (hs : s = jsIndexOf text sd) (he : e = jsLastIndexOf text ed)
    (h1 : s ≠ -1) (h2 : e ≠ -1) (h3 : s ≠ e) :
    parseCaptionText text dl =
      some { text := some (jsSlice text (s + (sd.length : Int)) e)
             size :=
               match parseSize (jsSlice text 0 s) with
               | some sz => some sz
               | none => parseSize (jsSlice text (e + (ed.length : Int)) (text.length : Int)) } :=
  parseCaptionText_found_eq text sd ed dl s e hdl hs he h1 h2 h3

/-- C3 witness: parsing "ab\"cap\"cd50x60" with the single delimiter '"'
extracts caption "cap" and the size 50x60 found in the right-hand segment. -/
theorem parseCaptionText_delimited_witness :
    ((2 : Int) = jsIndexOf (chars "ab\"cap\"cd50x60") (chars "\"") ∧
       (6 : Int) = jsLastIndexOf (chars "ab\"cap\"cd50x60") (chars "\"")) ∧
      parseCaptionText (chars "ab\"cap\"cd50x60") [chars "\""] =
        some { text := some (chars "cap")
               size := some { width := JSNum.num 50, height := JSNum.num 60 } } :=
  ⟨⟨by decide, by decide⟩,
    (parseCaptionText_delimited (chars "ab\"cap\"cd50x60") (chars "\"") (chars "\"")
        [chars "\""] 2 6 (Or.inl ⟨rfl, rfl⟩) (by decide) (by decide) (by decide) (by decide)
        (by decide)).trans (by decide)⟩

/-- C5: when the start delimiter is not found, or the end delimiter is not
found, or both indices coincide, the caption is absent and the entire original
text is the single remaining segment scanned for a size directive. -/
theorem parseCaptionText_no_caption (text sd ed : List Char) (dl : List (List Char)) (s e : Int)
    (htext : text ≠ [])
    (hdl : dl = [sd] ∧ ed = sd ∨ dl = [sd, ed])
    (hs : s = jsIndexOf text sd) (he : e = jsLastIndexOf text ed)
    (hcase : s = -1 ∨ e = -1 ∨ s = e) :
    parseCaptionText text dl = some { text := none, size := parseSize text } := by
  have hsize :
      (match parseSize text with
        | some sz => some sz
        | none => parseSize ([] : List Char)) = parseSize text := by
    cases hps : parseSize text <;> simp [hps, parseSize_nil]
  rcases hdl with ⟨hdl1, hed⟩ | hdl2
  · subst hdl1
    subst hed
    simp only [parseCaptionText, isEmpty_false_of_ne_nil htext, Bool.false_eq_true, if_false]
    rw [← hs, ← he]
    unfold captionAndSize
    rw [if_pos hcase, hsize]
  · subst hdl2
    simp only [parseCaptionText, isEmpty_false_of_ne_nil htext, Bool.false_eq_true, if_false]
    rw [← hs, ← he]
    unfold captionAndSize
    rw [if_pos hcase, hsize]

/-- C5 witness: "100x150" with delimiter '"' has no delimiter occurrence, so
the caption is absent and the whole text is scanned, yielding size 100x150. -/
theorem parseCaptionText_no_caption_witness :
    (chars "100x150" ≠ [] ∧ ((-1 : Int) = jsIndexOf (chars "100x150") (chars "\""))) ∧
      parseCaptionText (chars "100x150") [chars "\""] =
        some { text := none
               size := some { width := JSNum.num 100, height := JSNum.num 150 } } :=
  ⟨⟨by decide, by decide⟩,
    (parseCaptionText_no_caption (chars "100x150") (chars "\"") (chars "\"") [chars "\""]
        (-1) (-1) (by decide) (Or.inl ⟨rfl, rfl⟩) (by decide) (by decide)
        (Or.inl rfl)).trans (by decide)⟩

/-- C10: with two delimiters both present but the last end-delimiter occurrence
strictly before the first start-delimiter occurrence, the caption is the
present-but-empty string, and the two overlapping remaining segments
text[0..start) and text[end+len(endDelim)..] are scanned left first, so a size
token sitting between the two indices is found from the left segment. -/
theorem parseCaptionText_crossed (text sd ed : List Char) (s e : Int)
    (hs : s = jsIndexOf text sd) (he : e = jsLastIndexOf text ed)
    (h0 : 0 ≤ e) (h1 : e < s) :
    parseCaptionText text [sd, ed] =
      some { text := some []
             size :=
               match parseSize (jsSlice text 0 s) with
               | some sz => some sz
               | none => parseSize (jsSlice text (e + (ed.length : Int)) (text.length : Int)) } := by
  have hs1 : s ≠ -1 := by omega
  have hs2 : e ≠ -1 := by omega
  have hs3 : s ≠ e := by omega
  have htext : text ≠ [] := text_ne_nil_of_found text sd ed s e hs he hs1 hs2 hs3
  have hcap : jsSlice text (s + (sd.length : Int)) e = [] := by
    apply jsSlice_empty_of_le text _ _ h0
    have : (0 : Int) ≤ (sd.length : Int) := by omega
    omega
  have := parseCaptionText_found_eq text sd ed [sd, ed] s e (Or.inr rfl) hs he hs1 hs2 hs3
  rw [this, hcap]

/-- C10 witness: "}100x200{" with delimiters { and } crosses (end 0 < start 8);
the caption is the present-but-empty string and the size token between the two
indices is matched from the left remaining segment. -/
theorem parseCaptionText_crossed_witness :
    ((8 : Int) = jsIndexOf (chars "\x7d100x200\x7b") (chars "\x7b") ∧
       (0 : Int) = jsLastIndexOf (chars "\x7d100x200\x7b") (chars "\x7d")) ∧
      parseCaptionText (chars "\x7d100x200\x7b") [chars "\x7b", chars "\x7d"] =
        some { text := some []
               size := some { width := JSNum.num 100, height := JSNum.num 200 } } :=
  ⟨⟨by decide, by decide⟩,
    (parseCaptionText_crossed (chars "\x7d100x200\x7b") (chars "\x7b") (chars "\x7d") 8 0
        (by decide) (by decide) (by decide) (by decide)).trans (by decide)⟩

/-- C1: the code does not preserve the literal auto as the string "auto".
parseSize matches (\d+|auto)x(\d+|auto) case-insensitively, but then applies
parseInt to both captured groups unconditionally, so the group "auto" becomes
NaN: parseCaptionText("autox200", ['"']) = {text: undefined,
size: {width: NaN, height: 200}}, not {width: "auto", height: 200}. -/
theorem parseCaptionText_autox200 :
    parseCaptionText (chars "autox200") [chars "\""] =
      some { text := none, size := some { width := JSNum.nan, height := JSNum.num 200 } } := by
  decide

theorem assignIndices_assignIndices (k : Nat) (l : List CaptionEl) :
    assignIndices k (assignIndices k l) = assignIndices k l := by
  induction l generalizing k with
  | nil => rfl
  | cons el rest ih => simp [assignIndices, ih]

theorem assignIndices_get (k : Nat) (l : List CaptionEl) (i : Nat) :
    (assignIndices k l).get? i =
      (l.get? i).map (fun el => { el with imageCaptionIndex := some (toString (k + i)) }) := by
  induction l generalizing k i with
  | nil => simp [assignIndices]
  | cons el rest ih =>
    cases i with
    | zero => simp [assignIndices]
    | succ j =>
      simp only [assignIndices, List.get?_cons_succ, ih (k + 1) j]
      have : k + 1 + j = k + (j + 1) := by omega
      rw [this]

/-- C9: one run of updateFigureIndices gives every caption the dense 1-based
index of its position within its own pane, and a second run with no structural
change reproduces exactly the same assignment. -/
theorem updateFigureIndices_idempotent (leaves : List (List CaptionEl)) :
    updateFigureIndices (updateFigureIndices leaves) = updateFigureIndices leaves ∧
      ∀ (w : Nat) (pane : List CaptionEl) (i : Nat) (el : CaptionEl),
        leaves.get? w = some pane → pane.get? i = some el →
        ((updateFigureIndices leaves).get? w).bind (fun p => p.get? i) =
          some { el with imageCaptionIndex := some (toString (i + 1)) } := by
  constructor
  · unfold updateFigureIndices
    rw [List.map_map]
    apply List.map_congr_left
    intro pane hmem
    exact assignIndices_assignIndices 1 pane
  · intro w pane i el hw hi
    unfold updateFigureIndices
    rw [List.get?_map, hw]
    simp only [Option.map_some', Option.some_bind]
    rw [assignIndices_get, hi]
    have : 1 + i = i + 1 := by omega
    rw [this]
    rfl

/-- C9 witness: renumbering a concrete two-pane collection is idempotent and
assigns pane-local 1-based indices; the second caption of the first pane gets
index "2" regardless of its stale attribute. -/
theorem updateFigureIndices_idempotent_witness :
    updateFigureIndices (updateFigureIndices [[⟨10, none⟩, ⟨11, some "9"⟩], [⟨20, none⟩]]) =
        updateFigureIndices [[⟨10, none⟩, ⟨11, some "9"⟩], [⟨20, none⟩]] ∧
      ((updateFigureIndices [[⟨10, none⟩, ⟨11, some "9"⟩], [⟨20, none⟩]]).get? 0).bind
          (fun p => p.get? 1) =
        some { elId := 11, imageCaptionIndex := some (toString (1 + 1)) } :=
  ⟨(updateFigureIndices_idempotent [[⟨10, none⟩, ⟨11, some "9"⟩], [⟨20, none⟩]]).1,
    (updateFigureIndices_idempotent [[⟨10, none⟩, ⟨11, some "9"⟩], [⟨20, none⟩]]).2
      0 [⟨10, none⟩, ⟨11, some "9"⟩] 1 ⟨11, some "9"⟩ (by decide) (by decide)⟩

/-! ## Claim theorems for the extractor -/

/-- C2 (amended): when the traversal reaches an embed span containing neither
internal-link-source-tagged nor url-tagged nodes, parse_nodes_src throws and
the error propagates uncaught out of StateParser.parse: the pass aborts with
the error and returns no image records at all, losing the records of every
other valid embed span. -/
theorem parse_go_error_propagates (delimeter : List (List Char)) (doc : List Char)
    (n : SNode) (rest : SForest) (acc : List ParsedImage)
    (h1 : node_is_embed_start n = true)
    (h2 : (collect_nodes_until n rest.toList (fun nd _ => node_is_embed_end nd)).filter
        node_is_embed_src = [])
    (h3 : (collect_nodes_until n rest.toList (fun nd _ => node_is_embed_end nd)).filter
        node_is_image_src = []) :
    parse_go delimeter doc (.cons n rest) acc = .error "Could not find source for nodes." := by
  obtain ⟨p, f, t, c⟩ := n
  have hsrc : parse_nodes_src
      (collect_nodes_until (SNode.mk p f t c) rest.toList (fun nd _ => node_is_embed_end nd)) doc =
        .error "Could not find source for nodes." := by
    unfold parse_nodes_src
    rw [h2, h3]
    simp
  simp only [parse_go, h1, if_true]
  rw [hsrc]

/-- C2 amended witness: a concrete top-level faulty span makes the whole pass
return the thrown error. -/
theorem parse_go_error_propagates_witness :
    (node_is_embed_start (SNode.mk (some "formatting-link-start") 18 21 .nil) = true ∧
        (collect_nodes_until (SNode.mk (some "formatting-link-start") 18 21 .nil)
            (SForest.cons (SNode.mk (some "formatting-link-end") 21 23 .nil) .nil).toList
            (fun nd _ => node_is_embed_end nd)).filter node_is_embed_src = []) ∧
      parse_go [] (chars "![[img.png|hello]]![[]]")
          (SForest.cons (SNode.mk (some "formatting-link-start") 18 21 .nil)
            (SForest.cons (SNode.mk (some "formatting-link-end") 21 23 .nil) .nil)) [] =
        .error "Could not find source for nodes." :=
  ⟨⟨by decide, by rfl⟩,
    parse_go_error_propagates [] (chars "![[img.png|hello]]![[]]")
      (SNode.mk (some "formatting-link-start") 18 21 .nil)
      (SForest.cons (SNode.mk (some "formatting-link-end") 21 23 .nil) .nil) []
      (by decide) (by rfl) (by rfl)⟩

/-- C2 counterexample: with only the valid span A the pass returns exactly A's
record, but appending the faulty span B makes the same pass return the thrown
error instead of A's record plus a skip: the unresolvable span aborts the rest
of the pass and propagates the fault, contradicting the claim. -/
theorem StateParser_parse_aborts :
    (StateParser_parse [] c2Doc (.mk none 0 23 c2Good)).map
        (fun l => l.map (fun im => (im.src, im.caption, im.size, im.embed_type))) =
      .ok [(chars "img.png", some (chars "hello"), none, EmbedType.internal)] ∧
      (StateParser_parse [] c2Doc (.mk none 0 23 (c2Good.append c2Bad))).map
          (fun l => l.map (fun im => (im.src, im.caption, im.size, im.embed_type))) =
        .error "Could not find source for nodes." := by
  constructor
  · decide
  · decide

/-- C7: an internal embed span containing no alt-text-tagged node never
reaches the delimiter parser (parse_nodes_caption returns null first), and the
record built for it carries caption and size both absent. -/
theorem parse_nodes_caption_skipped (delimeter : List (List Char)) (doc : List Char)
    (n : SNode) (rest : SForest) (acc : List ParsedImage) (src : List Char)
    (h1 : node_is_embed_start n = true)
    (halt : (collect_nodes_until n rest.toList (fun nd _ => node_is_embed_end nd)).filter
        node_is_alt_text = [])
    (hsrc : parse_nodes_src
        (collect_nodes_until n rest.toList (fun nd _ => node_is_embed_end nd)) doc = .ok src) :
    parse_nodes_caption
        (collect_nodes_until n rest.toList (fun nd _ => node_is_embed_end nd)) doc delimeter =
        none ∧
      parse_go delimeter doc (.cons n rest) acc =
        parse_go delimeter doc rest
          (acc ++ [{ nodes := collect_nodes_until n rest.toList (fun nd _ => node_is_embed_end nd),
                     src := src, caption := none, size := none, embed_type := .internal }]) := by
  obtain ⟨p, f, t, c⟩ := n
  have hcap : parse_nodes_caption
      (collect_nodes_until (SNode.mk p f t c) rest.toList (fun nd _ => node_is_embed_end nd))
      doc delimeter = none := by
    unfold parse_nodes_caption
    rw [halt]
    simp
  refine ⟨hcap, ?_⟩
  simp only [parse_go, h1, if_true]
  rw [hsrc, hcap]
  rfl

/-- C7 witness: the span of "![[img.png]]" has a source node but no alias
node; its record has caption and size absent. -/
theorem parse_nodes_caption_skipped_witness :
    ((collect_nodes_until (SNode.mk (some "formatting-link-start") 0 3 .nil)
          (SForest.cons (SNode.mk (some "hmd-internal-link") 3 10 .nil)
            (SForest.cons (SNode.mk (some "formatting-link-end") 10 12 .nil) .nil)).toList
          (fun nd _ => node_is_embed_end nd)).filter node_is_alt_text = []) ∧
      (parse_nodes_caption
          (collect_nodes_until (SNode.mk (some "formatting-link-start") 0 3 .nil)
            (SForest.cons (SNode.mk (some "hmd-internal-link") 3 10 .nil)
              (SForest.cons (SNode.mk (some "formatting-link-end") 10 12 .nil) .nil)).toList
            (fun nd _ => node_is_embed_end nd)) (chars "![[img.png]]x") [chars "\""] = none ∧
        parse_go [chars "\""] (chars "![[img.png]]x")
            (SForest.cons (SNode.mk (some "formatting-link-start") 0 3 .nil)
              (SForest.cons (SNode.mk (some "hmd-internal-link") 3 10 .nil)
                (SForest.cons (SNode.mk (some "formatting-link-end") 10 12 .nil) .nil))) [] =
          parse_go [chars "\""] (chars "![[img.png]]x")
            (SForest.cons (SNode.mk (some "hmd-internal-link") 3 10 .nil)
              (SForest.cons (SNode.mk (some "formatting-link-end") 10 12 .nil) .nil))
            ([] ++ [{ nodes := collect_nodes_until (SNode.mk (some "formatting-link-start") 0 3 .nil)
                        (SForest.cons (SNode.mk (some "hmd-internal-link") 3 10 .nil)
                          (SForest.cons (SNode.mk (some "formatting-link-end") 10 12 .nil) .nil)).toList
                        (fun nd _ => node_is_embed_end nd),
                      src := chars "img.png", caption := none, size := none,
                      embed_type := EmbedType.internal }])) :=
  ⟨by rfl,
    parse_nodes_caption_skipped [chars "\""] (chars "![[img.png]]x")
      (SNode.mk (some "formatting-link-start") 0 3 .nil)
      (SForest.cons (SNode.mk (some "hmd-internal-link") 3 10 .nil)
        (SForest.cons (SNode.mk (some "formatting-link-end") 10 12 .nil) .nil))
      [] (chars "img.png") (by decide) (by rfl) (by decide)⟩

/-- Behaviour of the collection loop when the stop condition depends only on
the collected list: the result extends the accumulator by the shortest sibling
prefix on which the condition fires, or by all siblings when it never fires. -/
theorem collect_go_spec (stop : SNode → List SNode → Bool) (pred : List SNode → Bool)
    (hstop : ∀ a l, stop a l = pred l) :
    ∀ (sibs nodes : List SNode),
      ∃ k, k ≤ sibs.length ∧
        collect_go stop nodes sibs = nodes ++ sibs.take k ∧
        ((pred (nodes ++ sibs.take k) = true ∧
            ∀ j < k, pred (nodes ++ sibs.take j) = false) ∨
          (k = sibs.length ∧ ∀ j ≤ k, pred (nodes ++ sibs.take j) = false)) := by
  intro sibs
  induction sibs with
  | nil =>
    intro nodes
    refine ⟨0, Nat.le_refl 0, ?_, ?_⟩
    · rw [collect_go, hstop]
      cases hp : pred nodes <;> simp
    · cases hp : pred nodes
      · exact Or.inr ⟨rfl, fun j hj => by
          interval_cases j
          simpa using hp⟩
      · exact Or.inl ⟨by simpa using hp, fun j hj => absurd hj (Nat.not_lt_zero j)⟩
  | cons next rest ih =>
    intro nodes
    cases hp : pred nodes
    · obtain ⟨k, hk, hres, hcond⟩ := ih (nodes ++ [next])
      refine ⟨k + 1, by simpa using Nat.succ_le_succ hk, ?_, ?_⟩
      · rw [collect_go, hstop, hp]
        simp [hres]
      · have hshift : ∀ j, nodes ++ [next] ++ rest.take j = nodes ++ (next :: rest).take (j + 1) := by
          intro j
          simp
        rcases hcond with ⟨hfire, hmin⟩ | ⟨hall, hnone⟩
        · refine Or.inl ⟨by rw [← hshift]; exact hfire, ?_⟩
          intro j hj
          cases j with
          | zero => simpa using hp
          | succ i =>
            rw [← hshift]
            exact hmin i (Nat.lt_of_succ_lt_succ hj)
        · refine Or.inr ⟨by simpa using hall, ?_⟩
          intro j hj
          cases j with
          | zero => simpa using hp
          | succ i =>
            rw [← hshift]
            exact hnone i (Nat.le_of_succ_le_succ hj)
    · refine ⟨0, Nat.zero_le _, ?_, ?_⟩
      · rw [collect_go, hstop, hp]
        simp
      · exact Or.inl ⟨by simpa using hp, fun j hj => absurd hj (Nat.not_lt_zero j)⟩

/-- C8: collecting an external image span stops at exactly the first sibling
whose inclusion brings the count of formatting-link-string markers to two; if
no prefix ever reaches two markers, the whole sibling sequence is collected and
returned as a truncated span starting at the start node. -/
theorem collect_nodes_image_end_spec (start_node : SNode) (sibs : List SNode)
    (_h : node_is_image_start start_node = true) :
    ∃ k, k ≤ sibs.length ∧
      collect_nodes_until start_node sibs node_is_image_end =
        start_node :: sibs.take k ∧
      ((num_markers (start_node :: sibs.take k) = 2 ∧
          ∀ j < k, num_markers (start_node :: sibs.take j) ≠ 2) ∨
        (k = sibs.length ∧ ∀ j ≤ k, num_markers (start_node :: sibs.take j) ≠ 2)) := by
  obtain ⟨k, hk, hres, hcond⟩ :=
    collect_go_spec node_is_image_end (fun l => num_markers l == 2) (fun a l => rfl)
      sibs [start_node]
  refine ⟨k, hk, by simpa using hres, ?_⟩
  rcases hcond with ⟨hfire, hmin⟩ | ⟨hall, hnone⟩
  · refine Or.inl ⟨by simpa using hfire, ?_⟩
    intro j hj
    have := hmin j hj
    simpa using this
  · refine Or.inr ⟨hall, ?_⟩
    intro j hj
    have := hnone j hj
    simpa using this

/-- C8 witness: from an image-marker start node, collection stops exactly when
the second formatting-link-string sibling is included (the trailing sibling is
not collected), as shown by the collected start offsets. -/
theorem collect_nodes_image_end_spec_witness :
    (node_is_image_start (SNode.mk (some "image-marker") 0 1 .nil) = true ∧
        (collect_nodes_until (SNode.mk (some "image-marker") 0 1 .nil)
            [SNode.mk (some "image-alt-text") 1 3 .nil,
             SNode.mk (some "formatting-link-string") 3 4 .nil,
             SNode.mk (some "url") 4 9 .nil,
             SNode.mk (some "formatting-link-string") 9 10 .nil,
             SNode.mk none 10 12 .nil]
            node_is_image_end).map SNode.nfrom = [0, 1, 3, 4, 9]) ∧
      (∃ k, k ≤ ([SNode.mk (some "image-alt-text") 1 3 .nil,
              SNode.mk (some "formatting-link-string") 3 4 .nil,
              SNode.mk (some "url") 4 9 .nil,
              SNode.mk (some "formatting-link-string") 9 10 .nil,
              SNode.mk none 10 12 .nil] : List SNode).length ∧
        collect_nodes_until (SNode.mk (some "image-marker") 0 1 .nil)
            [SNode.mk (some "image-alt-text") 1 3 .nil,
             SNode.mk (some "formatting-link-string") 3 4 .nil,
             SNode.mk (some "url") 4 9 .nil,
             SNode.mk (some "formatting-link-string") 9 10 .nil,
             SNode.mk none 10 12 .nil]
            node_is_image_end =
          SNode.mk (some "image-marker") 0 1 .nil ::
            ([SNode.mk (some "image-alt-text") 1 3 .nil,
              SNode.mk (some "formatting-link-string") 3 4 .nil,
              SNode.mk (some "url") 4 9 .nil,
              SNode.mk (some "formatting-link-string") 9 10 .nil,
              SNode.mk none 10 12 .nil] : List SNode).take k ∧
        ((num_markers (SNode.mk (some "image-marker") 0 1 .nil ::
              ([SNode.mk (some "image-alt-text") 1 3 .nil,
                SNode.mk (some "formatting-link-string") 3 4 .nil,
                SNode.mk (some "url") 4 9 .nil,
                SNode.mk (some "formatting-link-string") 9 10 .nil,
                SNode.mk none 10 12 .nil] : List SNode).take k) = 2 ∧
            ∀ j < k, num_markers (SNode.mk (some "image-marker") 0 1 .nil ::
              ([SNode.mk (some "image-alt-text") 1 3 .nil,
                SNode.mk (some "formatting-link-string") 3 4 .nil,
                SNode.mk (some "url") 4 9 .nil,
                SNode.mk (some "formatting-link-string") 9 10 .nil,
                SNode.mk none 10 12 .nil] : List SNode).take j) ≠ 2) ∨
          (k = ([SNode.mk (some "image-alt-text") 1 3 .nil,
              SNode.mk (some "formatting-link-string") 3 4 .nil,
              SNode.mk (some "url") 4 9 .nil,
              SNode.mk (some "formatting-link-string") 9 10 .nil,
              SNode.mk none 10 12 .nil] : List SNode).length ∧
            ∀ j ≤ k, num_markers (SNode.mk (some "image-marker") 0 1 .nil ::
              ([SNode.mk (some "image-alt-text") 1 3 .nil,
                SNode.mk (some "formatting-link-string") 3 4 .nil,
                SNode.mk (some "url") 4 9 .nil,
                SNode.mk (some "formatting-link-string") 9 10 .nil,
                SNode.mk none 10 12 .nil] : List SNode).take j) ≠ 2))) :=
  ⟨⟨by decide, by rfl⟩,
    collect_nodes_image_end_spec (SNode.mk (some "image-marker") 0 1 .nil)
      [SNode.mk (some "image-alt-text") 1 3 .nil,
       SNode.mk (some "formatting-link-string") 3 4 .nil,
       SNode.mk (some "url") 4 9 .nil,
       SNode.mk (some "formatting-link-string") 9 10 .nil,
       SNode.mk none 10 12 .nil]
      (by decide)⟩

theorem collect_go_extends (stop : SNode → List SNode → Bool) :
    ∀ (sibs nodes : List SNode), ∃ extra, collect_go stop nodes sibs = nodes ++ extra := by
  intro sibs
  induction sibs with
  | nil =>
    intro nodes
    refine ⟨[], ?_⟩
    rw [collect_go]
    split <;> simp
  | cons next rest ih =>
    intro nodes
    rw [collect_go]
    split
    · exact ⟨[], by simp⟩
    · obtain ⟨extra, hx⟩ := ih (nodes ++ [next])
      exact ⟨next :: extra, by rw [hx]; simp⟩

theorem collect_nodes_until_head (n : SNode) (sibs : List SNode)
    (stop : SNode → List SNode → Bool) :
    ∃ extra, collect_nodes_until n sibs stop = n :: extra := by
  obtain ⟨extra, hx⟩ := collect_go_extends stop sibs [n]
  exact ⟨extra, by simpa using hx⟩

theorem recStart_collect (n : SNode) (sibs : List SNode) (stop : SNode → List SNode → Bool)
    (src : List Char) (cap : Option (List Char)) (sz : Option ImageSize) (et : EmbedType) :
    recStart { nodes := collect_nodes_until n sibs stop, src := src, caption := cap,
               size := sz, embed_type := et } = n.nfrom := by
  obtain ⟨extra, hx⟩ := collect_nodes_until_head n sibs stop
  simp [recStart, hx]

/-- Orderedness of the traversal: a successful pass over a well-formed sibling
forest appends records whose span start offsets lie in [lo, hi) and strictly
increase. -/
theorem parse_go_ordered (delimeter : List (List Char)) (doc : List Char) :
    ∀ (k : Nat) (sibs : SForest) (acc : List ParsedImage) (lo hi : Nat)
      (out : List ParsedImage),
      forestSize sibs ≤ k →
      wfForest lo hi sibs = true →
      parse_go delimeter doc sibs acc = .ok out →
      ∃ new, out = acc ++ new ∧
        (∀ x ∈ new.map recStart, lo ≤ x ∧ x < hi) ∧
        List.Pairwise (· < ·) (new.map recStart) := by
  intro k
  induction k with
  | zero =>
    intro sibs acc lo hi out hsz hwf hp
    cases sibs with
    | nil =>
      refine ⟨[], ?_, by simp, by simp⟩
      simp only [parse_go] at hp
      simpa using hp.symm
    | cons n rest =>
      obtain ⟨p, f, t, c⟩ := n
      simp only [forestSize] at hsz
      omega
  | succ k ih =>
    intro sibs acc lo hi out hsz hwf hp
    cases sibs with
    | nil =>
      refine ⟨[], ?_, by simp, by simp⟩
      simp only [parse_go] at hp
      simpa using hp.symm
    | cons n rest =>
      obtain ⟨p, f, t, c⟩ := n
      simp only [forestSize] at hsz
      simp only [wfForest, Bool.and_eq_true, decide_eq_true_eq] at hwf
      obtain ⟨⟨⟨⟨hlof, hft⟩, hthi⟩, hwc⟩, hwrest⟩ := hwf
      by_cases h1 : node_is_embed_start (SNode.mk p f t c) = true
      · simp only [parse_go, h1, if_true] at hp
        cases hsrc : parse_nodes_src
            (collect_nodes_until (SNode.mk p f t c) rest.toList
              (fun nd _ => node_is_embed_end nd)) doc with
        | error e =>
          rw [hsrc] at hp
          simp at hp
        | ok src =>
          rw [hsrc] at hp
          simp only [] at hp
          obtain ⟨new2, he2, hb2, hp2⟩ :=
            ih rest _ t hi out (by omega) hwrest hp
          refine ⟨_ :: new2, by simpa using he2, ?_, ?_⟩
          · intro x hx
            simp only [List.map_cons, List.mem_cons] at hx
            rcases hx with hx | hx
            · rw [hx, recStart_collect]
              simp only [SNode.nfrom]
              omega
            · obtain ⟨h1x, h2x⟩ := hb2 x hx
              exact ⟨by omega, h2x⟩
          · rw [List.map_cons, List.pairwise_cons]
            refine ⟨?_, hp2⟩
            intro b hb
            obtain ⟨h1b, _⟩ := hb2 b hb
            rw [recStart_collect]
            simp only [SNode.nfrom]
            omega
      · rw [Bool.not_eq_true] at h1
        by_cases h2 : node_is_image_start (SNode.mk p f t c) = true
        · simp only [parse_go, h1, Bool.false_eq_true, if_false, h2, if_true] at hp
          cases hsrc : parse_nodes_src
              (collect_nodes_until (SNode.mk p f t c) rest.toList node_is_image_end) doc with
          | error e =>
            rw [hsrc] at hp
            simp at hp
          | ok src =>
            rw [hsrc] at hp
            simp only [] at hp
            obtain ⟨new2, he2, hb2, hp2⟩ :=
              ih rest _ t hi out (by omega) hwrest hp
            refine ⟨_ :: new2, by simpa using he2, ?_, ?_⟩
            · intro x hx
              simp only [List.map_cons, List.mem_cons] at hx
              rcases hx with hx | hx
              · rw [hx, recStart_collect]
                simp only [SNode.nfrom]
                omega
              · obtain ⟨h1x, h2x⟩ := hb2 x hx
                exact ⟨by omega, h2x⟩
            · rw [List.map_cons, List.pairwise_cons]
              refine ⟨?_, hp2⟩
              intro b hb
              obtain ⟨h1b, _⟩ := hb2 b hb
              rw [recStart_collect]
              simp only [SNode.nfrom]
              omega
        · rw [Bool.not_eq_true] at h2
          simp only [parse_go, h1, h2, Bool.false_eq_true, if_false] at hp
          cases hok : parse_go delimeter doc c acc with
          | error e =>
            rw [hok] at hp
            simp at hp
          | ok acc2 =>
            rw [hok] at hp
            simp only [] at hp
            obtain ⟨new1, he1, hb1, hp1⟩ :=
              ih c acc f t acc2 (by omega) hwc hok
            obtain ⟨new2, he2, hb2, hp2⟩ :=
              ih rest acc2 t hi out (by omega) hwrest hp
            refine ⟨new1 ++ new2, by rw [he2, he1]; simp, ?_, ?_⟩
            · intro x hx
              simp only [List.map_append, List.mem_append] at hx
              rcases hx with hx | hx
              · obtain ⟨h1x, h2x⟩ := hb1 x hx
                exact ⟨by omega, by omega⟩
              · obtain ⟨h1x, h2x⟩ := hb2 x hx
                exact ⟨by omega, h2x⟩
            · rw [List.map_append, List.pairwise_append]
              refine ⟨hp1, hp2, ?_⟩
              intro a ha b hb
              obtain ⟨_, h2a⟩ := hb1 a ha
              obtain ⟨h1b, _⟩ := hb2 b hb
              omega

/-- C6: for every well-formed document tree, a successful StateParser.parse
returns the image records ordered by strictly increasing start offset of their
first node (left-to-right, top-to-bottom document order), so the 0-based list
position is the figure index of that pass. -/
theorem StateParser_parse_ordered (delimeter : List (List Char)) (doc : List Char)
    (root : SNode) (hi : Nat) (out : List ParsedImage)
    (hwf : wfForest 0 hi (.cons root .nil) = true)
    (hp : StateParser_parse delimeter doc root = .ok out) :
    List.Pairwise (· < ·) (out.map recStart) := by
  obtain ⟨new, he, _, hpw⟩ :=
    parse_go_ordered delimeter doc (forestSize (.cons root .nil)) (.cons root .nil) []
      0 hi out (Nat.le_refl _) hwf hp
  rw [he]
  simpa using hpw

/-- C6 witness: the pass over the three-embed document returns the records of
A, B, C in source order [A, B, C] (sources a.png, b.png, c.png; start offsets
0, 10, 20) and those offsets are strictly increasing. -/
theorem StateParser_parse_ordered_witness :
    (wfForest 0 30 (SForest.cons c6Root SForest.nil) = true ∧
        ((StateParser_parse [] c6Doc c6Root).toOption.getD []).map recStart = [0, 10, 20] ∧
        (StateParser_parse [] c6Doc c6Root).map (fun l => l.map (fun im => im.src)) =
          .ok [chars "a.png", chars "b.png", chars "c.png"]) ∧
      List.Pairwise (· < ·)
        (((StateParser_parse [] c6Doc c6Root).toOption.getD []).map recStart) :=
  ⟨⟨by decide, by decide, by decide⟩,
    StateParser_parse_ordered [] c6Doc c6Root 30
      ((StateParser_parse [] c6Doc c6Root).toOption.getD []) (by decide) rfl⟩
